import Mathlib

/-!
# Verification of the amahoot quiz-session core

Shallow embedding of the game-session orchestration core (`GameService` in
the TypeScript source, plus the websocket handler layer) and proofs of the
stated properties: the rank-based scoring formula, duplicate-answer
rejection, session finishing and result snapshots, player/score invariants,
question advancement, leaderboard construction, join-code generation and
player-name deduplication.

Conventions of the embedding:
* Timestamps (ISO strings / `Date.now()` in the source) are `Nat`
  milliseconds; only their ordering and equality matter.
* JavaScript numbers used for scores and points are modelled as `Int`
  (all values produced by the code are integers: `Math.round` results and
  sums thereof); intermediate non-integer arithmetic is modelled exactly
  in `ℚ`, with JavaScript `Math.round` as Mathlib `round` (both are
  "half away from zero towards +infinity", i.e. `⌊x + 1/2⌋`).
* The DynamoDB-backed store is a record `Store` holding the single session
  under discussion together with its player list and saved game result;
  each service method becomes a function `Store → ... → Store × result`
  returning the (possibly unchanged) store and the outcome.  A thrown
  `Error(msg)` is modelled as `Except.error msg` with the exact source
  message string.
-/

namespace Amahoot

/-- `Question` from `types.ts`: id, text, choices, correct index, time
limit, base point value. -/
structure Question where
  id : String
  text : String
  choices : List String
  correctAnswer : Int
  timeLimit : Nat
  points : Int
  deriving DecidableEq

/-- `PlayerAnswer` from `types.ts`. `submittedAt` is the ISO timestamp,
modelled as `Nat` milliseconds. -/
structure PlayerAnswer where
  questionId : String
  selectedChoice : Int
  timeToAnswer : Nat
  isCorrect : Bool
  points : Int
  submittedAt : Nat
  deriving DecidableEq

/-- `Player` from `types.ts`. -/
structure Player where
  id : String
  name : String
  sessionId : String
  score : Int
  answers : List PlayerAnswer
  isOnline : Bool
  joinedAt : Nat
  deriving DecidableEq

/-- `GameSession.status`: `"waiting" | "active" | "finished"`. -/
inductive SessionStatus where
  | waiting
  | active
  | finished
  deriving DecidableEq

/-- `Quiz` from `types.ts` (fields the core reads). -/
structure Quiz where
  id : String
  title : String
  questions : List Question
  deriving DecidableEq

/-- `GameSession` from `types.ts`.  The `players` array of the source is
kept separately in `Store.players` (the source always reloads players from
the store before using them). -/
structure GameSession where
  id : String
  quizId : String
  hostId : String
  joinCode : String
  status : SessionStatus
  currentQuestionIndex : Nat
  createdAt : Nat
  startedAt : Option Nat
  finishedAt : Option Nat
  quiz : Option Quiz
  deriving DecidableEq

/-- `LeaderboardEntry` from `types.ts`. -/
structure LeaderboardEntry where
  playerId : String
  playerName : String
  score : Int
  rank : Nat
  deriving DecidableEq

/-- The intermediate leaderboard record built in `getLeaderboard` before
ranks are assigned (`{playerId, playerName, score}`). -/
structure LBData where
  playerId : String
  playerName : String
  score : Int
  deriving DecidableEq

/-- Per-question statistics entry of `saveGameResult`. -/
structure QuestionStat where
  questionId : String
  questionText : String
  correctAnswer : Int
  correctCount : Nat
  totalAnswers : Nat
  deriving DecidableEq

/-- `GameResult` from `dynamodb.ts`, as assembled in `saveGameResult`. -/
structure GameResult where
  sessionId : String
  quizId : String
  quizTitle : String
  hostId : String
  completedAt : Nat
  totalParticipants : Nat
  totalQuestions : Nat
  averageScore : Int
  leaderboard : List LeaderboardEntry
  questionStats : List QuestionStat
  isPublic : Bool
  duration : Option Int
  deriving DecidableEq

/-- The slice of the DynamoDB state a single session's service calls touch:
the session record, its player records, and the saved game result.
`resultBuilds` counts how many times a game-result snapshot has been built
and saved (each `dynamoService.saveGameResult` call), so that "exactly one
snapshot build" claims can be stated. -/
structure Store where
  session : GameSession
  players : List Player
  gameResult : Option GameResult
  resultBuilds : Nat
  deriving DecidableEq

/-- The success payload of `submitAnswer`:
`{ isCorrect, points, questionId, rank?, totalCorrect? }`. -/
structure SubmitResult where
  isCorrect : Bool
  points : Int
  questionId : String
  rank : Option Nat
  totalCorrect : Option Nat
  deriving DecidableEq

/-! ## Stable sorting

JavaScript `Array.prototype.sort` is stable.  Both call sites
(`correctAnswersForQuestion.sort((a, b) => a.submittedAt - b.submittedAt)`
and `leaderboardData.sort((a, b) => b.score - a.score)`) use a strict
numeric comparator; a stable sort for such a comparator is insertion sort
where an element is inserted *before* the first position whose element
does not strictly precede it. -/

/-- Insert `x` into `l`, skipping over every leading element `y` with
`lt y x` (i.e. `y` strictly precedes `x`); ties and larger elements stay
behind `x`, which keeps the sort stable. -/
def insertBy (lt : α → α → Bool) (x : α) : List α → List α
  | [] => [x]
  | y :: ys => if lt y x then y :: insertBy lt x ys else x :: y :: ys

/-- Stable sort by the strict precedence test `lt`. -/
def sortBy (lt : α → α → Bool) : List α → List α
  | [] => []
  | x :: xs => insertBy lt x (sortBy lt xs)

/-! ## Scoring (`submitAnswer`, lines 312-371) -/

/-- The rank-based dynamic scoring of `submitAnswer`:

```
if (totalCorrect === 1) { points = basePoints; }
else {
  const rankPercentage = 1.0 - ((rank - 1) / totalCorrect) * 0.5;
  points = Math.round(basePoints * rankPercentage);
  const minPoints = Math.round(basePoints * 0.3);
  points = Math.max(points, minPoints);
}
```
-/
def calcPoints (basePoints : Int) (rank totalCorrect : Nat) : Int :=
  if totalCorrect = 1 then
    basePoints
  else
    let rankPercentage : ℚ := 1 - (((rank : ℚ) - 1) / (totalCorrect : ℚ)) * 0.5
    let points : Int := round ((basePoints : ℚ) * rankPercentage)
    let minPoints : Int := round ((basePoints : ℚ) * 0.3)
    max points minPoints

/-- An element of `correctAnswersForQuestion` in `submitAnswer`:
`{ playerId, playerName, submittedAt, timeToAnswer }`. -/
structure CorrectEntry where
  playerId : String
  playerName : String
  submittedAt : Nat
  timeToAnswer : Nat
  deriving DecidableEq

/-- The loop of `submitAnswer` collecting, for each player, its recorded
correct answer for `questionId` (if any). -/
def correctAnswersFor (players : List Player) (questionId : String) :
    List CorrectEntry :=
  players.filterMap fun p =>
    (p.answers.find? fun a => a.questionId == questionId && a.isCorrect).map
      fun a => ⟨p.id, p.name, a.submittedAt, a.timeToAnswer⟩

/-- The recorded correct answers for `questionId` with the current
submission appended, sorted by submission time ascending — the list whose
1-based `findIndex` of the submitting player is the `rank` and whose length
is `totalCorrect`. -/
def correctSetWith (players : List Player) (questionId pid pname : String)
    (now timeToAnswer : Nat) : List CorrectEntry :=
  sortBy (fun a b => decide (a.submittedAt < b.submittedAt))
    (correctAnswersFor players questionId ++ [⟨pid, pname, now, timeToAnswer⟩])

/-- Replace the first element whose `id` matches (the object aliasing of
`players.find(p => p.id === playerId)` followed by in-place mutation and
`updatePlayer`). -/
def updateFirst (pid : String) (f : Player → Player) : List Player → List Player
  | [] => []
  | p :: ps => if p.id == pid then f p :: ps else p :: updateFirst pid f ps

/-! ## Join-code generation (`generateJoinCode`, lines 15-17)

```
private generateJoinCode(): string {
  return Math.random().toString(36).substring(2, 8).toUpperCase();
}
```

`Math.random()` draws a double in `[0, 1)`.  `Number.prototype.toString(36)`
prints it as `"0"` when the draw is exactly `0`, and otherwise as `"0."`
followed by the draw's base-36 fractional digits (lowercase, shortest
round-tripping expansion, so possibly fewer than 6 digits).  The draw is
therefore modelled by its printed digit list `digits : List (Fin 36)`. -/

/-- The base-36 digit characters of `Number.prototype.toString(36)`:
`0`-`9` then `a`-`z`. -/
def base36Char (d : Fin 36) : Char :=
  if d.val < 10 then Char.ofNat (48 + d.val) else Char.ofNat (87 + d.val)

/-- `draw.toString(36)` as a character list: `"0"` for the zero draw,
otherwise `"0."` followed by the digits. -/
def randomToString36 (digits : List (Fin 36)) : List Char :=
  match digits with
  | [] => ['0']
  | _ => '0' :: '.' :: digits.map base36Char

/-- `generateJoinCode`: `.substring(2, 8)` keeps at most the first six
fractional digits, `.toUpperCase()` upcases them. -/
def generateJoinCode (digits : List (Fin 36)) : String :=
  ⟨(((randomToString36 digits).drop 2).take 6).map Char.toUpper⟩

/-- Uppercase-alphanumeric as claimed for join codes: `0`-`9` or `A`-`Z`. -/
def isUpperAlnum (c : Char) : Bool :=
  (('0' ≤ c) && (c ≤ '9')) || (('A' ≤ c) && (c ≤ 'Z'))

/-! ## GameService methods -/

/-- The fresh session record built in `createSession` (lines 60-70):
status `waiting`, `currentQuestionIndex = 0`, no start/finish times, the
quiz snapshot embedded. -/
def newSession (sessionId quizId hostId joinCode : String) (now : Nat)
    (quiz : Quiz) : GameSession :=
  { id := sessionId
    quizId := quizId
    hostId := hostId
    joinCode := joinCode
    status := .waiting
    currentQuestionIndex := 0
    createdAt := now
    startedAt := none
    finishedAt := none
    quiz := some quiz }

/-- The fresh player record built in `joinSession` (lines 147-155):
score `0`, empty answers. -/
def newPlayer (id name sessionId : String) (now : Nat) : Player :=
  { id := id
    name := name
    sessionId := sessionId
    score := 0
    answers := []
    isOnline := true
    joinedAt := now }

/-- The name-deduplication loop of `joinSession` (lines 122-130):

```
let uniquePlayerName = playerName;
let nameCounter = 1;
while (players.find(p => p.name === uniquePlayerName)) {
  nameCounter++;
  uniquePlayerName = playerName + nameCounter;
}
```

The `while` loop is modelled with explicit fuel; `players.length + 1`
iterations always suffice (each failed test consumes a distinct taken name,
see `uniquePlayerName_spec`), so the fuelled function computes exactly the
loop's result. -/
def uniqueNameGo (players : List Player) (base : String) :
    Nat → Nat → String → String
  | 0, _, current => current
  | fuel + 1, nameCounter, current =>
    if players.any (fun p => p.name == current) then
      uniqueNameGo players base fuel (nameCounter + 1)
        (base ++ Nat.repr (nameCounter + 1))
    else
      current

/-- The effective display name `joinSession` assigns for request `base`
against the current roster. -/
def uniquePlayerName (players : List Player) (base : String) : String :=
  uniqueNameGo players base (players.length + 1) 1 base

/-- `joinSession` (lines 87-167), after join-code resolution: rejects a
session that is not `waiting`, deduplicates the display name, creates and
appends the player. -/
def joinSession (st : Store) (playerName : String) (newId : String)
    (now : Nat) : Store × Except String Player :=
  if st.session.status ≠ .waiting then
    (st, .error "Game has already started")
  else
    let uname := uniquePlayerName st.players playerName
    let player := newPlayer newId uname st.session.id now
    ({ st with players := st.players ++ [player] }, .ok player)

/-- The websocket handler `player_join` (server.ts) attaches a
`nameChanged` notice to the success reply iff
`player.name !== playerName`. -/
def playerJoinNameChangeNotice (requestedName : String) (player : Player) :
    Bool :=
  player.name != requestedName

/-- `startGame` (lines 175-206): host-only, from `waiting`, non-empty
roster; sets `active` and the start time. -/
def startGame (st : Store) (hostId : String) (now : Nat) :
    Store × Bool :=
  if st.session.hostId ≠ hostId then (st, false)
  else if st.session.status ≠ .waiting then (st, false)
  else if st.players.length = 0 then (st, false)
  else
    ({ st with
        session :=
          { st.session with status := .active, startedAt := some now } },
      true)

/-- Ranks assigned by position:
`leaderboardData.map((player, index) => ({...player, rank: index + 1}))`
with `i` the 1-based rank of the head. -/
def assignRanks (i : Nat) : List LBData → List LeaderboardEntry
  | [] => []
  | e :: es => ⟨e.playerId, e.playerName, e.score, i⟩ :: assignRanks (i + 1) es

/-- `getLeaderboard` (lines 408-433): project players to
`{playerId, playerName, score}`, sort by score descending (stable), assign
1-based ranks by position. -/
def getLeaderboard (players : List Player) : List LeaderboardEntry :=
  let leaderboardData := players.map fun p => LBData.mk p.id p.name p.score
  let sorted := sortBy (fun a b => decide (b.score < a.score)) leaderboardData
  assignRanks 1 sorted

/-- The statistics and snapshot assembly of `saveGameResult`
(lines 475-559), given the (already `finished`) session record and the
player list.  Returns `none` when the session has no embedded quiz (the
source logs and returns without saving). -/
def buildGameResult (session : GameSession) (players : List Player)
    (now : Nat) : Option GameResult :=
  match session.quiz with
  | none => none
  | some quiz =>
    let leaderboard := getLeaderboard players
    let totalParticipants := players.length
    let totalQuestions := quiz.questions.length
    let averageScore : Int :=
      if totalParticipants > 0 then
        round (((players.map fun p => p.score).sum : ℚ) / (totalParticipants : ℚ))
      else 0
    let questionStats := quiz.questions.map fun question =>
      let questionAnswers :=
        (players.map fun player =>
          player.answers.filter fun answer => answer.questionId == question.id).flatten
      QuestionStat.mk question.id question.text question.correctAnswer
        (questionAnswers.filter fun answer => answer.isCorrect).length
        questionAnswers.length
    let duration : Option Int :=
      match session.startedAt, session.finishedAt with
      | some s, some f => some (round (((f : ℚ) - (s : ℚ)) / 1000))
      | _, _ => none
    some
      { sessionId := session.id
        quizId := session.quizId
        quizTitle := quiz.title
        hostId := session.hostId
        completedAt := now
        totalParticipants := totalParticipants
        totalQuestions := totalQuestions
        averageScore := averageScore
        leaderboard := leaderboard
        questionStats := questionStats
        isPublic := true
        duration := duration }

/-- `saveGameResult` as a store transition: build the snapshot from the
current session/players and save it (overwriting any previous one),
counting the build. -/
def saveGameResult (st : Store) (now : Nat) : Store :=
  match buildGameResult st.session st.players now with
  | none => st
  | some r =>
    { st with gameResult := some r, resultBuilds := st.resultBuilds + 1 }

/-- `finishGame` (lines 435-473): checks only that the session exists
(always true here), sets `status := finished` with a fresh `finishedAt`,
then triggers `saveGameResult`; returns `true`. -/
def finishGame (st : Store) (now : Nat) : Store × Bool :=
  let st1 :=
    { st with
        session :=
          { st.session with status := .finished, finishedAt := some now } }
  (saveGameResult st1 now, true)

/-- `nextQuestion` (lines 208-258): host-only, `active` only, quiz
required; when `currentQuestionIndex` has reached the question count,
triggers `finishGame` and reports "no more questions" (`ok none`) without
incrementing; otherwise serves the question at the current index and
increments the index for the next call. -/
def nextQuestion (st : Store) (hostId : String) (now : Nat) :
    Store × Except String (Option Question) :=
  if st.session.hostId ≠ hostId then
    (st, .error "Only host can control questions")
  else if st.session.status ≠ .active then
    (st, .error "Game is not active")
  else
    match st.session.quiz with
    | none => (st, .error "Quiz not found in session")
    | some quiz =>
      let currentIndex := st.session.currentQuestionIndex
      if h : currentIndex < quiz.questions.length then
        ({ st with
            session :=
              { st.session with currentQuestionIndex := currentIndex + 1 } },
          .ok (some (quiz.questions.get ⟨currentIndex, h⟩)))
      else
        ((finishGame st now).1, .ok none)

/-- `submitAnswer` (lines 260-406).  Checks in source order: session
`active`, quiz present, question exists, player exists, no duplicate
answer, choice in range; computes correctness, rank-based points, appends
the answer record and adds the points to the player's score. -/
def submitAnswer (st : Store) (playerId questionId : String)
    (selectedChoice : Int) (timeToAnswer : Nat) (now : Nat) :
    Store × Except String SubmitResult :=
  if st.session.status ≠ .active then
    (st, .error "Game is not active")
  else
    match st.session.quiz with
    | none => (st, .error "Quiz not found")
    | some quiz =>
      match quiz.questions.find? fun q => q.id == questionId with
      | none => (st, .error "Question not found")
      | some question =>
        match st.players.find? fun p => p.id == playerId with
        | none => (st, .error "Player not found")
        | some player =>
          match player.answers.find? fun a => a.questionId == questionId with
          | some _ => (st, .error "Player already answered this question")
          | none =>
            if selectedChoice < 0 ∨ (question.choices.length : Int) ≤ selectedChoice then
              (st, .error "Invalid choice selected")
            else
              let isCorrect : Bool := selectedChoice == question.correctAnswer
              let scored : Int × Option Nat × Option Nat :=
                if isCorrect then
                  let sorted :=
                    correctSetWith st.players questionId playerId player.name
                      now timeToAnswer
                  let rank :=
                    (sorted.findIdx fun a => a.playerId == playerId) + 1
                  let totalCorrect := sorted.length
                  (calcPoints question.points rank totalCorrect,
                    some rank, some totalCorrect)
                else
                  (0, none, none)
              let answer : PlayerAnswer :=
                { questionId := questionId
                  selectedChoice := selectedChoice
                  timeToAnswer := timeToAnswer
                  isCorrect := isCorrect
                  points := scored.1
                  submittedAt := now }
              let updated : Player :=
                { player with
                    answers := player.answers ++ [answer]
                    score := player.score + scored.1 }
              ({ st with players := updateFirst playerId (fun _ => updated) st.players },
                .ok
                  { isCorrect := isCorrect
                    points := scored.1
                    questionId := questionId
                    rank := scored.2.1
                    totalCorrect := scored.2.2 })

/-! ## Lemmas about the stable sort -/

theorem insertBy_eq_append (lt : α → α → Bool) (x : α) (l : List α) :
    ∃ l₁ l₂, l = l₁ ++ l₂ ∧ insertBy lt x l = l₁ ++ x :: l₂ ∧
      ∀ y ∈ l₁, lt y x = true := by
  induction l with
  | nil => exact ⟨[], [], rfl, rfl, by simp⟩
  | cons y ys ih =>
    by_cases hlt : lt y x = true
    · obtain ⟨l₁, l₂, hsplit, heq, hall⟩ := ih
      refine ⟨y :: l₁, l₂, by simp [hsplit], ?_, ?_⟩
      · simp [insertBy, hlt, heq]
      · intro z hz
        rcases List.mem_cons.mp hz with rfl | hz
        · exact hlt
        · exact hall z hz
    · refine ⟨[], y :: ys, rfl, ?_, by simp⟩
      simp [insertBy, hlt]

theorem insertBy_perm (lt : α → α → Bool) (x : α) (l : List α) :
    List.Perm (insertBy lt x l) (x :: l) := by
  obtain ⟨l₁, l₂, hsplit, heq, -⟩ := insertBy_eq_append lt x l
  rw [heq, hsplit]
  exact List.perm_middle

theorem sortBy_perm (lt : α → α → Bool) (l : List α) :
    List.Perm (sortBy lt l) l := by
  induction l with
  | nil => exact List.Perm.refl _
  | cons x xs ih =>
    exact (insertBy_perm lt x (sortBy lt xs)).trans (ih.cons x)

theorem pairwise_insertBy {R : α → α → Prop} {lt : α → α → Bool}
    (h1 : ∀ a b, lt a b = true → R a b)
    (h2 : ∀ a b, lt b a = false → R a b)
    (htrans : ∀ a b c, R a b → R b c → R a c)
    (x : α) (l : List α) (h : l.Pairwise R) :
    (insertBy lt x l).Pairwise R := by
  induction l with
  | nil => simp [insertBy]
  | cons y ys ih =>
    rw [List.pairwise_cons] at h
    obtain ⟨hy, hys⟩ := h
    rw [insertBy]
    split
    next hlt =>
      rw [List.pairwise_cons]
      refine ⟨?_, ih hys⟩
      intro z hz
      have hz2 := (insertBy_perm lt x ys).subset hz
      rcases List.mem_cons.mp hz2 with rfl | hzys
      · exact h1 y z hlt
      · exact hy z hzys
    next hlt =>
      have hlt2 : lt y x = false := by simpa using hlt
      rw [List.pairwise_cons]
      refine ⟨?_, List.pairwise_cons.mpr ⟨hy, hys⟩⟩
      intro z hz
      rcases List.mem_cons.mp hz with rfl | hzys
      · exact h2 x z hlt2
      · exact htrans x y z (h2 x y hlt2) (hy z hzys)

theorem sortBy_pairwise {R : α → α → Prop} {lt : α → α → Bool}
    (h1 : ∀ a b, lt a b = true → R a b)
    (h2 : ∀ a b, lt b a = false → R a b)
    (htrans : ∀ a b c, R a b → R b c → R a c)
    (l : List α) : (sortBy lt l).Pairwise R := by
  induction l with
  | nil => simp [sortBy]
  | cons x xs ih => exact pairwise_insertBy h1 h2 htrans x _ ih

/-- A stable sort does not disturb the relative order of elements that the
comparator treats as mutually non-preceding: filtering by any predicate
`p` that only selects such elements commutes with the sort. -/
theorem filter_sortBy (lt : α → α → Bool) (p : α → Bool)
    (hp : ∀ a b, p a = true → p b = true → lt a b = false) (l : List α) :
    (sortBy lt l).filter p = l.filter p := by
  induction l with
  | nil => rfl
  | cons x xs ih =>
    obtain ⟨l₁, l₂, hsplit, heq, hall⟩ := insertBy_eq_append lt x (sortBy lt xs)
    have hjoin : l₁.filter p ++ l₂.filter p = xs.filter p := by
      rw [← List.filter_append, ← hsplit, ih]
    rw [sortBy, heq, List.filter_append, List.filter_cons]
    by_cases hx : p x = true
    · have h₁ : l₁.filter p = [] := by
        rw [List.filter_eq_nil_iff]
        intro y hy hpy
        have := hp y x hpy hx
        rw [hall y hy] at this
        exact Bool.true_eq_false.mp this
      rw [h₁] at hjoin
      simp only [List.nil_append] at hjoin
      simp [hx, h₁, List.filter_cons, hjoin]
    · have hx2 : p x = false := by simpa using hx
      simp [hx2, List.filter_cons, hjoin]

/-! ## Lemmas about rank assignment and the leaderboard -/

/-- Forget the rank of a leaderboard entry. -/
def stripRank (e : LeaderboardEntry) : LBData :=
  ⟨e.playerId, e.playerName, e.score⟩

theorem assignRanks_length (i : Nat) (l : List LBData) :
    (assignRanks i l).length = l.length := by
  induction l generalizing i with
  | nil => rfl
  | cons e es ih => simp [assignRanks, ih]

theorem assignRanks_get (i : Nat) (l : List LBData) (k : Nat)
    (h : k < (assignRanks i l).length) :
    ((assignRanks i l).get ⟨k, h⟩).rank = i + k := by
  induction l generalizing i k with
  | nil => simp [assignRanks] at h
  | cons e es ih =>
    cases k with
    | zero => rfl
    | succ k =>
      have := ih (i + 1) k (by simpa [assignRanks, Nat.succ_lt_succ_iff] using h)
      simp only [assignRanks, List.get_cons_succ, this]
      omega

theorem assignRanks_map_stripRank (i : Nat) (l : List LBData) :
    (assignRanks i l).map stripRank = l := by
  induction l generalizing i with
  | nil => rfl
  | cons e es ih => simp [assignRanks, stripRank, ih]

/-- The projection of the roster that `getLeaderboard` sorts. -/
def toLBData (players : List Player) : List LBData :=
  players.map fun p => LBData.mk p.id p.name p.score

theorem getLeaderboard_eq (players : List Player) :
    getLeaderboard players =
      assignRanks 1
        (sortBy (fun a b => decide (b.score < a.score)) (toLBData players)) :=
  rfl

theorem sortScore_pairwise (l : List LBData) :
    (sortBy (fun a b => decide (b.score < a.score)) l).Pairwise
      (fun a b => b.score ≤ a.score) := by
  refine sortBy_pairwise ?_ ?_ ?_ l
  · intro a b h
    exact le_of_lt (of_decide_eq_true h)
  · intro a b h
    exact le_of_not_lt (of_decide_eq_false h)
  · intro a b c hab hbc
    exact le_trans hbc hab

/-- C6: `getLeaderboard` returns one entry per current player, sorted by
score descending with ties kept in encounter order (the filter of the
result by any fixed score equals the filter of the input roster, in
order), and the rank of the `k`-th entry (0-based `k`) is exactly
`k + 1` — a dense 1-based rank sequence with no gaps. -/
theorem getLeaderboard_spec (players : List Player) :
    (getLeaderboard players).length = players.length
    ∧ (∀ k, (h : k < (getLeaderboard players).length) →
        ((getLeaderboard players).get ⟨k, h⟩).rank = k + 1)
    ∧ (getLeaderboard players).Pairwise (fun a b => b.score ≤ a.score)
    ∧ List.Perm ((getLeaderboard players).map stripRank) (toLBData players)
    ∧ ∀ s : Int,
        ((getLeaderboard players).map stripRank).filter (fun d => d.score == s)
          = (toLBData players).filter (fun d => d.score == s) := by
  have hstrip : (getLeaderboard players).map stripRank
      = sortBy (fun a b => decide (b.score < a.score)) (toLBData players) := by
    rw [getLeaderboard_eq, assignRanks_map_stripRank]
  refine ⟨?_, ?_, ?_, ?_, ?_⟩
  · rw [getLeaderboard_eq, assignRanks_length,
      (sortBy_perm _ _).length_eq, toLBData, List.length_map]
  · intro k h
    show ((assignRanks 1 (sortBy (fun a b => decide (b.score < a.score))
        (toLBData players))).get ⟨k, h⟩).rank = k + 1
    rw [assignRanks_get]
    omega
  · have h2 := sortScore_pairwise (toLBData players)
    rw [← hstrip] at h2
    have h3 := List.pairwise_map.mp h2
    exact h3.imp fun hab => hab
  · rw [hstrip]
    exact sortBy_perm _ _
  · intro s
    rw [hstrip]
    refine filter_sortBy _ _ ?_ (toLBData players)
    intro a b ha hb
    have ha2 : a.score = s := by simpa using ha
    have hb2 : b.score = s := by simpa using hb
    simp [ha2, hb2]

/-- Concrete roster for the leaderboard witness: a tie on score 5. -/
def lbDemoPlayers : List Player :=
  [⟨"a", "Ann", "s", 5, [], true, 0⟩,
   ⟨"b", "Bob", "s", 9, [], true, 1⟩,
   ⟨"c", "Cid", "s", 5, [], true, 2⟩]

theorem getLeaderboard_spec_witness :
    (getLeaderboard lbDemoPlayers).length = 3
    ∧ ((getLeaderboard lbDemoPlayers).get ⟨1, by decide⟩).rank = 2
    ∧ ((getLeaderboard lbDemoPlayers).map stripRank).filter
        (fun d => d.score == (5 : Int))
        = (toLBData lbDemoPlayers).filter (fun d => d.score == (5 : Int)) := by
  obtain ⟨h1, h2, h3, h4, h5⟩ := getLeaderboard_spec lbDemoPlayers
  exact ⟨h1, h2 1 (by decide), h5 5⟩

/-! ## Scoring lemmas -/

theorem calcPoints_one (b : Int) (r : Nat) : calcPoints b r 1 = b := by
  simp [calcPoints]

theorem calcPoints_min30 (n r : Nat) (_hn : 1 ≤ n) : 30 ≤ calcPoints 100 r n := by
  unfold calcPoints
  split
  · norm_num
  · have h30 : round ((((100 : Int) : ℚ)) * 0.3) = 30 := by
      norm_num [round_eq]
    simp only [h30]
    exact le_max_right _ _

/-- The submitting player's entry is in the sorted correct set, so its
`findIndex` is a genuine position. -/
theorem correctSetWith_findIdx_lt (players : List Player)
    (qid pid pname : String) (now t : Nat) :
    (correctSetWith players qid pid pname now t).findIdx
        (fun a => a.playerId == pid)
      < (correctSetWith players qid pid pname now t).length := by
  apply List.findIdx_lt_length_of_exists
  refine ⟨⟨pid, pname, now, t⟩, ?_, by simp⟩
  unfold correctSetWith
  exact (sortBy_perm _ _).mem_iff.mpr (by simp)

/-- C1: every correct submission accepted by `submitAnswer` in an active
session is scored by the rank formula: with `r` the 1-based position of
the submission in the recorded-plus-current correct answers for the
question ordered by submission time, and `n` that set's size, the points
are `calcPoints basePoints r n`; and for `basePoints = 100` the formula
gives `100` when `n = 1`, `100`/`88`/`63` for `r = 1, 2, 4` when `n = 4`,
and at least `30` for every `n ≥ 1` and every `r`. -/
theorem submitAnswer_scoring :
    (∀ st pid qid choice t now quiz question player,
      st.session.status = .active →
      st.session.quiz = some quiz →
      quiz.questions.find? (fun q => q.id == qid) = some question →
      st.players.find? (fun p => p.id == pid) = some player →
      player.answers.find? (fun a => a.questionId == qid) = none →
      ¬(choice < 0 ∨ (question.choices.length : Int) ≤ choice) →
      choice = question.correctAnswer →
      1 ≤ (correctSetWith st.players qid pid player.name now t).findIdx
            (fun a => a.playerId == pid) + 1
      ∧ (correctSetWith st.players qid pid player.name now t).findIdx
            (fun a => a.playerId == pid) + 1
          ≤ (correctSetWith st.players qid pid player.name now t).length
      ∧ (submitAnswer st pid qid choice t now).2 =
          .ok { isCorrect := true
                points := calcPoints question.points
                  ((correctSetWith st.players qid pid player.name now t).findIdx
                      (fun a => a.playerId == pid) + 1)
                  (correctSetWith st.players qid pid player.name now t).length
                questionId := qid
                rank := some
                  ((correctSetWith st.players qid pid player.name now t).findIdx
                      (fun a => a.playerId == pid) + 1)
                totalCorrect := some
                  (correctSetWith st.players qid pid player.name now t).length })
    ∧ (∀ b : Int, ∀ r, calcPoints b r 1 = b)
    ∧ calcPoints 100 1 4 = 100
    ∧ calcPoints 100 2 4 = 88
    ∧ calcPoints 100 4 4 = 63
    ∧ (∀ n r, 1 ≤ n → 30 ≤ calcPoints 100 r n) := by
  refine ⟨?_, calcPoints_one, ?_, ?_, ?_, fun n r hn => calcPoints_min30 n r hn⟩
  · intro st pid qid choice t now quiz question player hst hquiz hq hp hdup
      hchoice hcorrect
    subst hcorrect
    refine ⟨Nat.le_add_left 1 _,
      Nat.succ_le_of_lt (correctSetWith_findIdx_lt st.players qid pid
        player.name now t), ?_⟩
    simp [submitAnswer, hst, hquiz, hq, hp, hdup, hchoice, correctSetWith]
  · norm_num [calcPoints, round_eq]
  · norm_num [calcPoints, round_eq]
  · norm_num [calcPoints, round_eq]

/-- A one-player active session about to answer its one question
correctly (base points 100). -/
def scoringDemoStore : Store :=
  { session :=
      { id := "s1", quizId := "qz", hostId := "h", joinCode := "ABC123",
        status := .active, currentQuestionIndex := 0, createdAt := 0,
        startedAt := some 1, finishedAt := none,
        quiz := some ⟨"qz", "Demo", [⟨"q1", "2+2?", ["3", "4"], 1, 30, 100⟩]⟩ }
    players := [⟨"p1", "Ann", "s1", 0, [], true, 0⟩]
    gameResult := none
    resultBuilds := 0 }

theorem submitAnswer_scoring_witness :
    (1 ≤ 1 ∧ 1 ≤ 1 ∧
      (submitAnswer scoringDemoStore "p1" "q1" 1 5 10).2 =
        .ok { isCorrect := true, points := calcPoints 100 1 1,
              questionId := "q1", rank := some 1, totalCorrect := some 1 })
    ∧ calcPoints 100 1 1 = 100 :=
  ⟨submitAnswer_scoring.1 scoringDemoStore "p1" "q1" 1 5 10
      ⟨"qz", "Demo", [⟨"q1", "2+2?", ["3", "4"], 1, 30, 100⟩]⟩
      ⟨"q1", "2+2?", ["3", "4"], 1, 30, 100⟩
      ⟨"p1", "Ann", "s1", 0, [], true, 0⟩
      rfl rfl rfl rfl rfl (by decide) rfl,
    submitAnswer_scoring.2.1 100 1⟩

/-- C2: a second `submitAnswer` for a question the player has already
answered fails with the duplicate-answer error, and the failure is atomic:
the returned store is exactly the input store, so the score is unchanged,
no answer record is appended, and the existing answer is not overwritten. -/
theorem submitAnswer_duplicate (st : Store) (pid qid : String)
    (choice : Int) (t now : Nat) (quiz : Quiz) (question : Question)
    (player : Player) (a0 : PlayerAnswer)
    (hst : st.session.status = .active)
    (hquiz : st.session.quiz = some quiz)
    (hq : quiz.questions.find? (fun q => q.id == qid) = some question)
    (hp : st.players.find? (fun p => p.id == pid) = some player)
    (hdup : player.answers.find? (fun a => a.questionId == qid) = some a0) :
    submitAnswer st pid qid choice t now =
      (st, .error "Player already answered this question") := by
  simp [submitAnswer, hst, hquiz, hq, hp, hdup]

/-- `scoringDemoStore` after Ann answered `q1`; resubmission must be
rejected without changing anything. -/
def duplicateDemoStore : Store :=
  { session := scoringDemoStore.session
    players :=
      [⟨"p1", "Ann", "s1", 100, [⟨"q1", 1, 5, true, 100, 10⟩], true, 0⟩]
    gameResult := none
    resultBuilds := 0 }

theorem submitAnswer_duplicate_witness :
    submitAnswer duplicateDemoStore "p1" "q1" 0 7 20 =
      (duplicateDemoStore, .error "Player already answered this question") :=
  submitAnswer_duplicate duplicateDemoStore "p1" "q1" 0 7 20
    ⟨"qz", "Demo", [⟨"q1", "2+2?", ["3", "4"], 1, 30, 100⟩]⟩
    ⟨"q1", "2+2?", ["3", "4"], 1, 30, 100⟩
    ⟨"p1", "Ann", "s1", 100, [⟨"q1", 1, 5, true, 100, 10⟩], true, 0⟩
    ⟨"q1", 1, 5, true, 100, 10⟩
    rfl rfl rfl rfl rfl

/-! ## The score/answers invariant (C4) -/

/-- The per-player invariant: the cumulative score is the sum of the
points of the recorded answers, and there is at most one answer per
distinct question. -/
def playerInv (p : Player) : Prop :=
  p.score = (p.answers.map fun a => a.points).sum
  ∧ (p.answers.map fun a => a.questionId).Nodup

/-- A roster operation: a player joining, or a (possibly rejected) answer
submission. -/
inductive Op where
  | join (name newId : String) (now : Nat)
  | submit (pid qid : String) (choice : Int) (t now : Nat)

/-- The store transition of one operation (the result/error is dropped). -/
def applyOp (st : Store) : Op → Store
  | .join name newId now => (joinSession st name newId now).1
  | .submit pid qid choice t now => (submitAnswer st pid qid choice t now).1

/-- Run a sequence of operations left to right. -/
def runOps (st : Store) : List Op → Store
  | [] => st
  | op :: ops => runOps (applyOp st op) ops

theorem newPlayer_inv (id name sid : String) (now : Nat) :
    playerInv (newPlayer id name sid now) := by
  constructor <;> simp [newPlayer]

theorem mem_updateFirst {l : List Player} {x : Player} {pid : String}
    {f : Player → Player} (hx : x ∈ updateFirst pid f l) :
    x ∈ l ∨ ∃ y ∈ l, x = f y := by
  induction l with
  | nil => simp [updateFirst] at hx
  | cons p ps ih =>
    rw [updateFirst] at hx
    split at hx
    · rcases List.mem_cons.mp hx with rfl | hxps
      · exact Or.inr ⟨p, List.mem_cons_self p ps, rfl⟩
      · exact Or.inl (List.mem_cons_of_mem p hxps)
    · rcases List.mem_cons.mp hx with rfl | hxps
      · exact Or.inl (List.mem_cons_self _ _)
      · rcases ih hxps with h | ⟨y, hy, rfl⟩
        · exact Or.inl (List.mem_cons_of_mem p h)
        · exact Or.inr ⟨y, List.mem_cons_of_mem p hy, rfl⟩

/-- Appending a fresh answer whose points are added to the score preserves
the invariant. -/
theorem playerInv_extend (p : Player) (a : PlayerAnswer) (pts : Int)
    (hpts : a.points = pts) (hp : playerInv p)
    (hfresh : ∀ b ∈ p.answers, b.questionId ≠ a.questionId) :
    playerInv
      { p with answers := p.answers ++ [a], score := p.score + pts } := by
  obtain ⟨hscore, hnodup⟩ := hp
  constructor
  · simp [hscore, hpts]
  · rw [List.map_append, List.map_cons, List.map_nil, List.nodup_append]
    refine ⟨hnodup, List.nodup_singleton _, ?_⟩
    intro x hx hx2
    obtain ⟨b, hb, rfl⟩ := List.mem_map.mp hx
    rw [List.mem_singleton] at hx2
    exact hfresh b hb hx2

theorem joinSession_inv (st : Store) (name newId : String) (now : Nat)
    (hinv : ∀ p ∈ st.players, playerInv p) :
    ∀ p ∈ (joinSession st name newId now).1.players, playerInv p := by
  unfold joinSession
  split
  · exact hinv
  · intro p hp
    rcases List.mem_append.mp hp with h | h
    · exact hinv p h
    · rw [List.mem_singleton] at h
      subst h
      exact newPlayer_inv _ _ _ _

theorem submitAnswer_inv (st : Store) (pid qid : String) (choice : Int)
    (t now : Nat) (hinv : ∀ p ∈ st.players, playerInv p) :
    ∀ p ∈ (submitAnswer st pid qid choice t now).1.players, playerInv p := by
  unfold submitAnswer
  split
  · exact hinv
  split
  · exact hinv
  split
  · exact hinv
  split
  · exact hinv
  split
  · exact hinv
  split
  · exact hinv
  rename_i hst0 xq quiz hquiz xo question hq xp player hplayer xd hdup hchoice
  intro p hp
  dsimp only at hp
  rcases mem_updateFirst hp with h | ⟨y, hy, rfl⟩
  · exact hinv p h
  · refine playerInv_extend player _ _ rfl
      (hinv player (List.mem_of_find?_eq_some hplayer)) ?_
    intro b hb hbq
    have h2 := List.find?_eq_none.mp hdup b hb
    simp only [beq_iff_eq] at h2
    exact h2 hbq

theorem runOps_inv (ops : List Op) (st : Store)
    (hinv : ∀ p ∈ st.players, playerInv p) :
    ∀ p ∈ (runOps st ops).players, playerInv p := by
  induction ops generalizing st with
  | nil => exact hinv
  | cons op ops ih =>
    refine ih (applyOp st op) ?_
    cases op with
    | join name newId now => exact joinSession_inv st name newId now hinv
    | submit pid qid choice t now =>
      exact submitAnswer_inv st pid qid choice t now hinv

/-- C4: a freshly joined player has score 0 and no answers, and after any
sequence of join and submit operations (accepted or rejected) every
player's cumulative score is the sum of the `points` of its answers, with
at most one answer per distinct question. -/
theorem player_score_invariant :
    (∀ st name newId now player,
      st.session.status = .waiting →
      (joinSession st name newId now).2 = .ok player →
      player.score = 0 ∧ player.answers = [])
    ∧ (∀ st ops, (∀ p ∈ st.players, playerInv p) →
        ∀ p ∈ (runOps st ops).players,
          p.score = (p.answers.map fun a => a.points).sum
          ∧ (p.answers.map fun a => a.questionId).Nodup) := by
  constructor
  · intro st name newId now player hwait hok
    have : (joinSession st name newId now).2 =
        .ok (newPlayer newId (uniquePlayerName st.players name)
          st.session.id now) := by
      simp [joinSession, hwait]
    rw [this] at hok
    cases hok
    exact ⟨rfl, rfl⟩
  · intro st ops hinv p hp
    exact runOps_inv ops st hinv p hp

/-- A waiting one-question session with an empty roster. -/
def invDemoStore : Store :=
  { session :=
      { id := "s1", quizId := "qz", hostId := "h", joinCode := "ABC123",
        status := .waiting, currentQuestionIndex := 0, createdAt := 0,
        startedAt := none, finishedAt := none,
        quiz := some ⟨"qz", "Demo", [⟨"q1", "2+2?", ["3", "4"], 1, 30, 100⟩]⟩ }
    players := []
    gameResult := none
    resultBuilds := 0 }

theorem player_score_invariant_witness :
    ((newPlayer "p9" "Ann" "s1" 3).score = 0
      ∧ (newPlayer "p9" "Ann" "s1" 3).answers = [])
    ∧ ∀ p ∈ (runOps invDemoStore [.join "Ann" "p1" 1]).players,
        p.score = (p.answers.map fun a => a.points).sum
        ∧ (p.answers.map fun a => a.questionId).Nodup :=
  ⟨player_score_invariant.1 invDemoStore "Ann" "p9" 3
      (newPlayer "p9" "Ann" "s1" 3) rfl rfl,
    player_score_invariant.2 invDemoStore [.join "Ann" "p1" 1]
      (by intro p hp; simp [invDemoStore] at hp)⟩

/-! ## Finishing a session and the game-result snapshot -/

theorem finishGame_session (st : Store) (now : Nat) :
    (finishGame st now).1.session =
      { st.session with status := .finished, finishedAt := some now } := by
  unfold finishGame saveGameResult
  dsimp only
  split <;> rfl

theorem saveGameResult_builds (st : Store) (now : Nat) (quiz : Quiz)
    (hquiz : st.session.quiz = some quiz) :
    (saveGameResult st now).resultBuilds = st.resultBuilds + 1
    ∧ (saveGameResult st now).gameResult =
        buildGameResult st.session st.players now
    ∧ (saveGameResult st now).session = st.session
    ∧ (saveGameResult st now).players = st.players := by
  unfold saveGameResult
  rcases h : buildGameResult st.session st.players now with - | r
  · unfold buildGameResult at h
    rw [hquiz] at h
    simp at h
  · simp [h]

/-- C3 amended: `finishGame` on an existing session always succeeds, sets
`finished` with the fresh finish time, and triggers exactly one snapshot
build *per call* (the snapshot is saved under the session id, so a repeat
call overwrites the stored snapshot with a freshly built one rather than
keeping the first). -/
theorem finishGame_builds_once_per_call (st : Store) (now : Nat)
    (quiz : Quiz) (hquiz : st.session.quiz = some quiz) :
    (finishGame st now).2 = true
    ∧ (finishGame st now).1.session.status = .finished
    ∧ (finishGame st now).1.session.finishedAt = some now
    ∧ (finishGame st now).1.resultBuilds = st.resultBuilds + 1
    ∧ (finishGame st now).1.gameResult =
        buildGameResult
          { st.session with status := .finished, finishedAt := some now }
          st.players now := by
  have hfin : (finishGame st now).1 =
      saveGameResult
        { st with
            session :=
              { st.session with status := .finished, finishedAt := some now } }
        now := rfl
  obtain ⟨h1, h2, h3, h4⟩ :=
    saveGameResult_builds
      { st with
          session :=
            { st.session with status := .finished, finishedAt := some now } }
      now quiz hquiz
  refine ⟨rfl, ?_, ?_, ?_, ?_⟩
  · rw [hfin, h3]
  · rw [hfin, h3]
  · rw [hfin, h1]
  · rw [hfin, h2]

/-- An active one-player session used for the finish-related claims. -/
def finishDemoStore : Store :=
  { session :=
      { id := "s1", quizId := "qz", hostId := "h", joinCode := "ABC123",
        status := .active, currentQuestionIndex := 1, createdAt := 0,
        startedAt := some 1, finishedAt := none,
        quiz := some ⟨"qz", "Demo", [⟨"q1", "2+2?", ["3", "4"], 1, 30, 100⟩]⟩ }
    players := [⟨"p1", "Ann", "s1", 100, [⟨"q1", 1, 5, true, 100, 10⟩], true, 0⟩]
    gameResult := none
    resultBuilds := 0 }

/-- C3 counterexample: two `finishGame` calls on the same session perform
two snapshot builds (the second call is not guarded by the already
`finished` status), contradicting "repeated finish calls never produce
more than one snapshot build". -/
theorem finishGame_double_build :
    (finishGame (finishGame finishDemoStore 100).1 200).1.resultBuilds = 2
    ∧ ¬ ((finishGame (finishGame finishDemoStore 100).1 200).1.resultBuilds
          ≤ 1) := by
  constructor <;> decide

theorem finishGame_builds_once_per_call_witness :
    (finishGame finishDemoStore 100).2 = true
    ∧ (finishGame finishDemoStore 100).1.session.status = .finished
    ∧ (finishGame finishDemoStore 100).1.session.finishedAt = some 100
    ∧ (finishGame finishDemoStore 100).1.resultBuilds = 0 + 1
    ∧ (finishGame finishDemoStore 100).1.gameResult =
        buildGameResult
          { finishDemoStore.session with
              status := .finished, finishedAt := some 100 }
          finishDemoStore.players 100 :=
  finishGame_builds_once_per_call finishDemoStore 100
    ⟨"qz", "Demo", [⟨"q1", "2+2?", ["3", "4"], 1, 30, 100⟩]⟩ rfl

/-- C9: `finishGame` checks only that the session exists, not its status:
on a `waiting` (never started) or already `finished` session it still
succeeds and (re)sets `finished` with the fresh finish time — a session
can go directly from `waiting` to `finished`. -/
theorem finishGame_ignores_status (st : Store) (now : Nat)
    (_h : st.session.status = .waiting ∨ st.session.status = .finished) :
    (finishGame st now).2 = true
    ∧ (finishGame st now).1.session.status = .finished
    ∧ (finishGame st now).1.session.finishedAt = some now := by
  refine ⟨rfl, ?_, ?_⟩ <;> rw [finishGame_session]

/-- A `waiting` session (never started) for the C9 witness. -/
def waitingDemoStore : Store :=
  { session :=
      { id := "s2", quizId := "qz", hostId := "h", joinCode := "WAIT01",
        status := .waiting, currentQuestionIndex := 0, createdAt := 0,
        startedAt := none, finishedAt := none,
        quiz := some ⟨"qz", "Demo", [⟨"q1", "2+2?", ["3", "4"], 1, 30, 100⟩]⟩ }
    players := []
    gameResult := none
    resultBuilds := 0 }

theorem finishGame_ignores_status_witness :
    (finishGame waitingDemoStore 50).2 = true
    ∧ (finishGame waitingDemoStore 50).1.session.status = .finished
    ∧ (finishGame waitingDemoStore 50).1.session.finishedAt = some 50 :=
  finishGame_ignores_status waitingDemoStore 50 (Or.inl rfl)

/-- C10: the snapshot's `averageScore` is guarded against an empty
participant list: it is `0` for zero participants (no division), and the
rounded mean of the scores otherwise. -/
theorem averageScore_spec (session : GameSession) (players : List Player)
    (now : Nat) (quiz : Quiz) (hquiz : session.quiz = some quiz) :
    ∃ r, buildGameResult session players now = some r
      ∧ (players.length = 0 → r.averageScore = 0)
      ∧ (0 < players.length →
          r.averageScore =
            round (((players.map fun p => p.score).sum : ℚ)
              / (players.length : ℚ))) := by
  unfold buildGameResult
  rw [hquiz]
  refine ⟨_, rfl, ?_, ?_⟩ <;> intro h
  · simp [h]
  · simp only [gt_iff_lt, h, if_true]

/-- A finished session with two players (scores 100 and 75) for the C10
witness. -/
def resultDemoStore : Store :=
  { session :=
      { id := "s3", quizId := "qz", hostId := "h", joinCode := "DONE01",
        status := .finished, currentQuestionIndex := 1, createdAt := 0,
        startedAt := some 1, finishedAt := some 90,
        quiz := some ⟨"qz", "Demo", [⟨"q1", "2+2?", ["3", "4"], 1, 30, 100⟩]⟩ }
    players :=
      [⟨"p1", "Ann", "s3", 100, [⟨"q1", 1, 5, true, 100, 10⟩], true, 0⟩,
       ⟨"p2", "Bob", "s3", 75, [⟨"q1", 1, 9, true, 75, 14⟩], true, 0⟩]
    gameResult := none
    resultBuilds := 0 }

theorem averageScore_spec_witness :
    ∃ r, buildGameResult resultDemoStore.session resultDemoStore.players 90
        = some r
      ∧ (resultDemoStore.players.length = 0 → r.averageScore = 0)
      ∧ (0 < resultDemoStore.players.length →
          r.averageScore =
            round (((resultDemoStore.players.map fun p => p.score).sum : ℚ)
              / (resultDemoStore.players.length : ℚ))) :=
  averageScore_spec resultDemoStore.session resultDemoStore.players 90
    ⟨"qz", "Demo", [⟨"q1", "2+2?", ["3", "4"], 1, 30, 100⟩]⟩ rfl

/-! ## Question advancement (C5) -/

/-- C5: `currentQuestionIndex` starts at `0` in a fresh session, never
decreases across `nextQuestion`, and never exceeds the question count;
a successful advance returns the question at the pre-call index and
increments the index by exactly one, and once the index has reached the
question count `nextQuestion` reports no question, finishes the game, and
does not increment further. -/
theorem currentQuestionIndex_spec :
    (∀ sid qzid hid jc now quiz,
      (newSession sid qzid hid jc now quiz).currentQuestionIndex = 0)
    ∧ (∀ st hid now, st.session.currentQuestionIndex ≤
        (nextQuestion st hid now).1.session.currentQuestionIndex)
    ∧ (∀ st hid now quiz, st.session.quiz = some quiz →
        st.session.currentQuestionIndex ≤ quiz.questions.length →
        (nextQuestion st hid now).1.session.quiz = some quiz
        ∧ (nextQuestion st hid now).1.session.currentQuestionIndex
            ≤ quiz.questions.length)
    ∧ (∀ st hid now quiz, st.session.hostId = hid →
        st.session.status = .active →
        st.session.quiz = some quiz →
        (h : st.session.currentQuestionIndex < quiz.questions.length) →
        nextQuestion st hid now =
          ({ st with
              session :=
                { st.session with
                    currentQuestionIndex :=
                      st.session.currentQuestionIndex + 1 } },
            .ok (some (quiz.questions.get
              ⟨st.session.currentQuestionIndex, h⟩))))
    ∧ (∀ st hid now quiz, st.session.hostId = hid →
        st.session.status = .active →
        st.session.quiz = some quiz →
        quiz.questions.length ≤ st.session.currentQuestionIndex →
        (nextQuestion st hid now).2 = .ok none
        ∧ (nextQuestion st hid now).1.session.currentQuestionIndex
            = st.session.currentQuestionIndex
        ∧ (nextQuestion st hid now).1.session.status = .finished) := by
  refine ⟨fun _ _ _ _ _ _ => rfl, ?_, ?_, ?_, ?_⟩
  · intro st hid now
    unfold nextQuestion
    split
    · exact le_refl _
    split
    · exact le_refl _
    split
    · exact le_refl _
    dsimp only
    split
    · simp
    · rw [finishGame_session]
  · intro st hid now quiz hquiz hle
    unfold nextQuestion
    split
    · exact ⟨hquiz, hle⟩
    split
    · exact ⟨hquiz, hle⟩
    split
    · exact ⟨hquiz, hle⟩
    next quiz0 hquiz0 =>
      rw [hquiz0] at hquiz
      cases hquiz
      dsimp only
      split
      next h => exact ⟨hquiz0, by simpa using Nat.succ_le_of_lt h⟩
      next h => exact ⟨by rw [finishGame_session]; exact hquiz0,
        by rw [finishGame_session]; exact hle⟩
  · intro st hid now quiz hhost hstatus hquiz h
    simp [nextQuestion, hhost, hstatus, hquiz, h]
  · intro st hid now quiz hhost hstatus hquiz hlen
    have hnot : ¬ st.session.currentQuestionIndex < quiz.questions.length :=
      Nat.not_lt.mpr hlen
    refine ⟨?_, ?_, ?_⟩
    · simp [nextQuestion, hhost, hstatus, hquiz, hnot]
    · simp [nextQuestion, hhost, hstatus, hquiz, hnot, finishGame_session]
    · simp [nextQuestion, hhost, hstatus, hquiz, hnot, finishGame_session]

/-- An active two-question session at index 0 for the C5 witness. -/
def advanceDemoStore : Store :=
  { session :=
      { id := "s4", quizId := "qz", hostId := "h", joinCode := "ADV001",
        status := .active, currentQuestionIndex := 0, createdAt := 0,
        startedAt := some 1, finishedAt := none,
        quiz := some ⟨"qz", "Demo",
          [⟨"q1", "2+2?", ["3", "4"], 1, 30, 100⟩,
           ⟨"q2", "3+3?", ["6", "7"], 0, 30, 100⟩]⟩ }
    players := [⟨"p1", "Ann", "s4", 0, [], true, 0⟩]
    gameResult := none
    resultBuilds := 0 }

theorem currentQuestionIndex_spec_witness :
    ((newSession "s" "qz" "h" "JC" 0
        ⟨"qz", "Demo", []⟩).currentQuestionIndex = 0)
    ∧ nextQuestion advanceDemoStore "h" 10 =
        ({ advanceDemoStore with
            session :=
              { advanceDemoStore.session with currentQuestionIndex := 1 } },
          .ok (some ⟨"q1", "2+2?", ["3", "4"], 1, 30, 100⟩)) :=
  ⟨currentQuestionIndex_spec.1 "s" "qz" "h" "JC" 0 ⟨"qz", "Demo", []⟩,
    currentQuestionIndex_spec.2.2.2.1 advanceDemoStore "h" 10
      ⟨"qz", "Demo",
        [⟨"q1", "2+2?", ["3", "4"], 1, 30, 100⟩,
         ⟨"q2", "3+3?", ["6", "7"], 0, 30, 100⟩]⟩
      rfl rfl rfl (by decide)⟩

/-! ## Join-code claims (C7) -/

theorem base36Char_upper :
    ∀ d : Fin 36, isUpperAlnum (Char.toUpper (base36Char d)) = true := by
  decide

/-- C7 counterexample: the draw `0` prints as `"0"`, whose
`substring(2, 8)` is empty — the generated code has length 0, not 6. -/
theorem generateJoinCode_zero_draw :
    (generateJoinCode []).length = 0 ∧ ¬ (generateJoinCode []).length = 6 := by
  constructor <;> decide

/-- C7 amended: every generated code consists only of uppercase
alphanumeric characters, and its length is `min 6` the number of base-36
fractional digits the draw prints with — exactly 6 whenever the draw
prints with at least 6 digits, but shorter for draws whose base-36
expansion terminates early (e.g. the zero draw). -/
theorem generateJoinCode_spec (digits : List (Fin 36)) :
    (generateJoinCode digits).length = min 6 digits.length
    ∧ (∀ c ∈ (generateJoinCode digits).toList, isUpperAlnum c = true)
    ∧ (6 ≤ digits.length → (generateJoinCode digits).length = 6) := by
  have hlen : (generateJoinCode digits).length = min 6 digits.length := by
    cases digits with
    | nil => decide
    | cons d ds =>
      show ((((randomToString36 (d :: ds)).drop 2).take 6).map Char.toUpper).length = _
      simp [randomToString36, List.length_take]
      omega
  refine ⟨hlen, ?_, ?_⟩
  · intro c hc
    cases digits with
    | nil => simp [generateJoinCode, randomToString36] at hc
    | cons d ds =>
      have hc2 : c ∈ (((randomToString36 (d :: ds)).drop 2).take 6).map
          Char.toUpper := hc
      rw [List.mem_map] at hc2
      obtain ⟨x, hx, rfl⟩ := hc2
      have hx2 : x ∈ ((d :: ds).map base36Char).take 6 := hx
      have hx3 := List.take_subset 6 _ hx2
      rw [List.mem_map] at hx3
      obtain ⟨e, _, rfl⟩ := hx3
      exact base36Char_upper e
  · intro h6
    rw [hlen]
    omega

/-- A 7-digit draw for the C7 witness. -/
def joinCodeDemoDigits : List (Fin 36) :=
  [⟨10, by omega⟩, ⟨0, by omega⟩, ⟨35, by omega⟩, ⟨4, by omega⟩,
   ⟨17, by omega⟩, ⟨9, by omega⟩, ⟨2, by omega⟩]

theorem generateJoinCode_spec_witness :
    (generateJoinCode joinCodeDemoDigits).length
      = min 6 joinCodeDemoDigits.length
    ∧ (6 ≤ joinCodeDemoDigits.length →
        (generateJoinCode joinCodeDemoDigits).length = 6) :=
  ⟨(generateJoinCode_spec joinCodeDemoDigits).1,
    (generateJoinCode_spec joinCodeDemoDigits).2.2⟩

/-! ## Injectivity of the decimal suffix (for the name-collision loop) -/

/-- Decimal value of a digit-character list as produced by
`Nat.toDigitsCore 10`. -/
def decValue : List Char → Nat
  | [] => 0
  | c :: cs => (c.toNat - 48) * 10 ^ cs.length + decValue cs

theorem digitChar_toNat (n : Nat) (h : n < 10) :
    (Nat.digitChar n).toNat - 48 = n := by
  interval_cases n <;> decide

theorem toDigitsCore_decValue (f : Nat) :
    ∀ (n : Nat) (ds : List Char), n < 10 ^ f →
      decValue (Nat.toDigitsCore 10 f n ds) = n * 10 ^ ds.length + decValue ds := by
  induction f with
  | zero =>
    intro n ds h
    have hn : n = 0 := by simpa using h
    subst hn
    simp [Nat.toDigitsCore]
  | succ f ih =>
    intro n ds h
    simp only [Nat.toDigitsCore]
    by_cases hdiv : n / 10 = 0
    · simp only [hdiv, if_true]
      rw [decValue, digitChar_toNat _ (Nat.mod_lt _ (by norm_num))]
      have hn : n % 10 = n := by omega
      rw [hn]
    · simp only [hdiv, if_false]
      have h2 : n / 10 < 10 ^ f := by
        rw [Nat.div_lt_iff_lt_mul (by norm_num : 0 < 10)]
        calc n < 10 ^ (f + 1) := h
        _ = 10 ^ f * 10 := by rw [pow_succ]
      rw [ih (n / 10) (Nat.digitChar (n % 10) :: ds) h2]
      rw [decValue, digitChar_toNat _ (Nat.mod_lt _ (by norm_num))]
      have hmod := Nat.div_add_mod n 10
      conv_rhs => rw [← hmod]
      simp only [List.length_cons]
      ring_nf

theorem decValue_toDigits (n : Nat) : decValue (Nat.toDigits 10 n) = n := by
  have h : n < 10 ^ (n + 1) := by
    calc n < 2 ^ n := Nat.lt_two_pow n
    _ ≤ 10 ^ n := Nat.pow_le_pow_left (by norm_num) n
    _ ≤ 10 ^ (n + 1) := Nat.pow_le_pow_right (by norm_num) (Nat.le_succ n)
  have h2 := toDigitsCore_decValue (n + 1) n [] h
  simpa [Nat.toDigits, decValue] using h2

theorem repr_inj {m n : Nat} (h : Nat.repr m = Nat.repr n) : m = n := by
  have hm : Nat.toDigits 10 m = Nat.toDigits 10 n := congrArg String.data h
  have h2 := congrArg decValue hm
  rwa [decValue_toDigits, decValue_toDigits] at h2

theorem toDigitsCore_length_ge (f : Nat) : ∀ (n : Nat) (ds : List Char),
    ds.length + 1 ≤ (Nat.toDigitsCore 10 (f + 1) n ds).length := by
  induction f with
  | zero =>
    intro n ds
    simp only [Nat.toDigitsCore]
    split <;> simp [Nat.toDigitsCore]
  | succ f ih =>
    intro n ds
    rw [Nat.toDigitsCore]
    split
    · simp
    · have h2 := ih (n / 10) (Nat.digitChar (n % 10) :: ds)
      simp only [List.length_cons] at h2
      omega

theorem repr_length_pos (k : Nat) : 1 ≤ (Nat.repr k).length := by
  have h := toDigitsCore_length_ge k k []
  simpa [Nat.repr, Nat.toDigits, List.asString] using h

/-! ## The name-collision loop (C8) -/

/-- Whether a display name is already taken in the roster. -/
def takenName (players : List Player) (s : String) : Bool :=
  players.any fun p => p.name == s

/-- The `k`-th candidate the loop tries: the requested name itself for
`k = 1`, then `base ++ toString k` for `k = 2, 3, …`. -/
def candName (base : String) (k : Nat) : String :=
  if k = 1 then base else base ++ Nat.repr k

theorem candName_inj (base : String) {j k : Nat} (_hj : 1 ≤ j) (_hk : 1 ≤ k)
    (h : candName base j = candName base k) : j = k := by
  unfold candName at h
  by_cases h1 : j = 1 <;> by_cases h2 : k = 1
  · omega
  · exfalso
    rw [if_pos h1, if_neg h2] at h
    have hlen := congrArg String.length h
    rw [String.length_append] at hlen
    have := repr_length_pos k
    omega
  · exfalso
    rw [if_neg h1, if_pos h2] at h
    have hlen := congrArg String.length h
    rw [String.length_append] at hlen
    have := repr_length_pos j
    omega
  · rw [if_neg h1, if_neg h2] at h
    have hdata := congrArg String.data h
    rw [String.data_append, String.data_append] at hdata
    have h3 := List.append_cancel_left hdata
    exact repr_inj (String.ext h3)

/-- At least one of the first `players.length + 1` candidates is free:
the candidates are pairwise distinct and there are more of them than
there are taken names. -/
theorem exists_free_candidate (players : List Player) (base : String) :
    ∃ m, 1 ≤ m ∧ m < 1 + (players.length + 1)
      ∧ takenName players (candName base m) = false := by
  by_contra hcon
  push_neg at hcon
  have hall : ∀ m, 1 ≤ m → m < players.length + 2 →
      candName base m ∈ players.map fun p => p.name := by
    intro m h1 h2
    have h3 := hcon m h1 (by omega)
    have htrue : takenName players (candName base m) = true := by
      cases hb : takenName players (candName base m)
      · exact absurd hb h3
      · rfl
    rw [takenName, List.any_eq_true] at htrue
    obtain ⟨p, hp, hpe⟩ := htrue
    rw [beq_iff_eq] at hpe
    rw [List.mem_map]
    exact ⟨p, hp, hpe⟩
  have hnodup : ((List.range (players.length + 1)).map
      fun i => candName base (i + 1)).Nodup := by
    refine List.Nodup.map_on ?_ (List.nodup_range _)
    intro x _ y _ hxy
    have := candName_inj base (by omega) (by omega) hxy
    omega
  have hsub : ((List.range (players.length + 1)).map
      fun i => candName base (i + 1)) ⊆ players.map fun p => p.name := by
    intro s hs
    rw [List.mem_map] at hs
    obtain ⟨i, hi, rfl⟩ := hs
    rw [List.mem_range] at hi
    exact hall (i + 1) (by omega) (by omega)
  have hlen := (List.subperm_of_subset hnodup hsub).length_le
  simp only [List.length_map, List.length_range] at hlen
  omega

theorem uniqueNameGo_spec (players : List Player) (base : String) :
    ∀ (fuel counter : Nat), 1 ≤ counter →
      (∃ m, counter ≤ m ∧ m < counter + fuel ∧
        takenName players (candName base m) = false) →
      ∃ m, counter ≤ m
        ∧ takenName players (candName base m) = false
        ∧ (∀ j, counter ≤ j → j < m → takenName players (candName base j) = true)
        ∧ uniqueNameGo players base fuel counter (candName base counter) =
            candName base m := by
  intro fuel
  induction fuel with
  | zero =>
    intro counter _ hex
    obtain ⟨m, hm1, hm2, -⟩ := hex
    omega
  | succ fuel ih =>
    intro counter hc hex
    cases hb : takenName players (candName base counter) with
    | false =>
      have heq : uniqueNameGo players base (fuel + 1) counter
          (candName base counter) = candName base counter := by
        rw [uniqueNameGo]
        simp [show (players.any fun p => p.name == candName base counter)
          = false from hb]
      exact ⟨counter, le_refl _, hb, fun j h1 h2 => by omega, heq⟩
    | true =>
      have hcand : base ++ Nat.repr (counter + 1) = candName base (counter + 1) := by
        unfold candName
        rw [if_neg (by omega)]
      have heq : uniqueNameGo players base (fuel + 1) counter
          (candName base counter) =
          uniqueNameGo players base fuel (counter + 1)
            (candName base (counter + 1)) := by
        rw [uniqueNameGo]
        simp [show (players.any fun p => p.name == candName base counter)
          = true from hb, hcand]
      obtain ⟨m, hm1, hm2, hm3⟩ := hex
      have hne : m ≠ counter := by
        intro he
        rw [he, hb] at hm3
        cases hm3
      obtain ⟨m2, g1, g2, g3, g4⟩ := ih (counter + 1) (by omega)
        ⟨m, by omega, by omega, hm3⟩
      refine ⟨m2, by omega, g2, ?_, heq.trans g4⟩
      intro j hj1 hj2
      rcases Nat.eq_or_lt_of_le hj1 with rfl | hlt
      · exact hb
      · exact g3 j (by omega) hj2

/-- The first free candidate characterises `uniquePlayerName`. -/
theorem uniquePlayerName_eq (players : List Player) (base : String) :
    ∃ m, 1 ≤ m
      ∧ takenName players (candName base m) = false
      ∧ (∀ j, 1 ≤ j → j < m → takenName players (candName base j) = true)
      ∧ uniquePlayerName players base = candName base m := by
  obtain ⟨m, h1, h2, h3⟩ := exists_free_candidate players base
  obtain ⟨m2, g1, g2, g3, g4⟩ := uniqueNameGo_spec players base
    (players.length + 1) 1 (le_refl 1) ⟨m, h1, by omega, h3⟩
  refine ⟨m2, g1, g2, g3, ?_⟩
  have hc1 : candName base 1 = base := by
    unfold candName
    rw [if_pos rfl]
  rw [uniquePlayerName, ← hc1]
  exact g4

/-- C8: when the requested name is free it is kept; when it is taken the
effective name is `base ++ toString k` for the *least* `k ≥ 2` whose
candidate no existing player holds (every earlier candidate `base2 …` is
taken); and the join handler informs the caller exactly when the
effective name differs from the requested one. -/
theorem nameCollision_spec :
    (∀ players base, takenName players base = false →
      uniquePlayerName players base = base)
    ∧ (∀ players base, takenName players base = true →
        ∃ k, 2 ≤ k
          ∧ uniquePlayerName players base = base ++ Nat.repr k
          ∧ takenName players (base ++ Nat.repr k) = false
          ∧ ∀ j, 2 ≤ j → j < k →
              takenName players (base ++ Nat.repr j) = true)
    ∧ (∀ st playerName newId now player,
        st.session.status = .waiting →
        (joinSession st playerName newId now).2 = .ok player →
        player.name = uniquePlayerName st.players playerName
        ∧ (playerJoinNameChangeNotice playerName player = true ↔
            player.name ≠ playerName)) := by
  have hc1 : ∀ base, candName base 1 = base := by
    intro base
    unfold candName
    rw [if_pos rfl]
  have hck : ∀ base k, k ≠ 1 → candName base k = base ++ Nat.repr k := by
    intro base k hk
    unfold candName
    rw [if_neg hk]
  refine ⟨?_, ?_, ?_⟩
  · intro players base hfree
    obtain ⟨m, h1, h2, h3, h4⟩ := uniquePlayerName_eq players base
    have hm1 : m = 1 := by
      by_contra hne
      have := h3 1 (le_refl 1) (by omega)
      rw [hc1] at this
      rw [this] at hfree
      cases hfree
    rw [hm1, hc1] at h4
    exact h4
  · intro players base htaken
    obtain ⟨m, h1, h2, h3, h4⟩ := uniquePlayerName_eq players base
    have hm1 : m ≠ 1 := by
      intro he
      rw [he, hc1] at h2
      rw [h2] at htaken
      cases htaken
    refine ⟨m, by omega, ?_, ?_, ?_⟩
    · rw [hck base m hm1] at h4
      exact h4
    · rw [hck base m hm1] at h2
      exact h2
    · intro j hj1 hj2
      have := h3 j (by omega) hj2
      rw [hck base j (by omega)] at this
      exact this
  · intro st playerName newId now player hwait hok
    have h2 : (joinSession st playerName newId now).2 =
        .ok (newPlayer newId (uniquePlayerName st.players playerName)
          st.session.id now) := by
      simp [joinSession, hwait]
    rw [h2] at hok
    cases hok
    refine ⟨rfl, ?_⟩
    simp [playerJoinNameChangeNotice, newPlayer]

/-- Roster with the names "Ann" and "Ann2" both taken, for the C8
witness. -/
def nameDemoPlayers : List Player :=
  [⟨"p1", "Ann", "s1", 0, [], true, 0⟩,
   ⟨"p2", "Ann2", "s1", 0, [], true, 1⟩]

theorem nameCollision_spec_witness :
    (uniquePlayerName nameDemoPlayers "Bob" = "Bob")
    ∧ (∃ k, 2 ≤ k
        ∧ uniquePlayerName nameDemoPlayers "Ann" = "Ann" ++ Nat.repr k
        ∧ takenName nameDemoPlayers ("Ann" ++ Nat.repr k) = false
        ∧ ∀ j, 2 ≤ j → j < k →
            takenName nameDemoPlayers ("Ann" ++ Nat.repr j) = true) :=
  ⟨nameCollision_spec.1 nameDemoPlayers "Bob" (by decide),
    nameCollision_spec.2.1 nameDemoPlayers "Ann" (by decide)⟩

end Amahoot
